import Mathlib

/-!
Verification of the chunked-object storage program (src/main.rs) against its
natural-language specification.

The embedding is shallow: file bytes are lists of naturals, the SQLite catalog
is a record of row lists, the remote upload endpoint and the random number
generator are oracle functions supplied as parameters, and the retry loop of
`upload_chunk_with_retry` is run on an explicit fuel so that non-termination
(the unbounded HTTP-429 retry path) is observable as fuel exhaustion.
-/

namespace OctoPotato

/-- Payload bytes are opaque to every claim; a byte is modelled as a natural. -/
abbrev Byte := Nat

/-- Ceiling division, `ceil(n / s)` on naturals (claims C2/C3 phrase chunk
counts with it). -/
def ceilDiv (n s : Nat) : Nat := (n + s - 1) / s

/-- The chunk-splitting read loop of `ingest_file` (main.rs:236-246): a buffer
of `chunk_size` bytes is filled from the file and pushed as `(idx, bytes)`
until a read returns 0 bytes.  On a regular file every read before EOF fills
the buffer, so each iteration takes `min S remaining` bytes.  When `S = 0`
the Rust loop reads into an empty buffer, `read` returns `0` immediately, and
the loop exits with no chunks produced — that case is transcribed faithfully
here (no `InvalidArgument` check exists in the source).  The `fuel` argument
only makes the recursion structural: every iteration consumes at least one
byte, so `data.length` fuel (as supplied by `read_chunks`) reproduces the
loop exactly. -/
def read_chunks_loop (S : Nat) : Nat → Nat → List Byte → List (Nat × List Byte)
  | 0, _, _ => []
  | fuel + 1, idx, data =>
    if S = 0 ∨ data = [] then []
    else (idx, data.take S) :: read_chunks_loop S fuel (idx + 1) (data.drop S)

/-- The read loop on its natural fuel. -/
def read_chunks (S idx : Nat) (data : List Byte) : List (Nat × List Byte) :=
  read_chunks_loop S data.length idx data

/-- The splitter as invoked by `ingest_file`: indices start at 0. -/
def split_chunks (S : Nat) (data : List Byte) : List (Nat × List Byte) :=
  read_chunks S 0 data

theorem read_chunks_loop_nil (S fuel idx : Nat) (data : List Byte)
    (h : S = 0 ∨ data = []) : read_chunks_loop S fuel idx data = [] := by
  cases fuel with
  | zero => rfl
  | succ fuel =>
    simp only [read_chunks_loop]
    rw [if_pos h]

theorem read_chunks_loop_cons (S fuel idx : Nat) (data : List Byte)
    (hS : S ≠ 0) (hd : data ≠ []) :
    read_chunks_loop S (fuel + 1) idx data =
      (idx, data.take S) :: read_chunks_loop S fuel (idx + 1) (data.drop S) := by
  simp only [read_chunks_loop]
  rw [if_neg (by simp [hS, hd])]

theorem ceilDiv_zero_left (S : Nat) (hS : 0 < S) : ceilDiv 0 S = 0 := by
  unfold ceilDiv
  exact Nat.div_eq_of_lt (by omega)

theorem ceilDiv_rec (n S : Nat) (hS : 0 < S) (hn : 0 < n) :
    ceilDiv n S = ceilDiv (n - S) S + 1 := by
  unfold ceilDiv
  rcases le_or_lt n S with h | h
  · have h0 : n - S = 0 := by omega
    rw [h0]
    have e0 : (0 + S - 1) / S = 0 := Nat.div_eq_of_lt (by omega)
    rw [e0]
    have e1 : n + S - 1 = (n - 1) + S := by omega
    rw [e1, Nat.add_div_right _ hS, Nat.div_eq_of_lt (by omega)]
  · have e1 : n + S - 1 = ((n - 1 - S) + S) + S := by omega
    have e2 : n - S + S - 1 = (n - 1 - S) + S := by omega
    rw [e1, e2, Nat.add_div_right _ hS, Nat.add_div_right _ hS]

theorem read_chunks_length_aux (S : Nat) (hS : 0 < S) :
    ∀ (n : Nat) (data : List Byte), data.length ≤ n → ∀ idx,
      (read_chunks_loop S n idx data).length = ceilDiv data.length S := by
  intro n
  induction n with
  | zero =>
    intro data hlen idx
    have hd : data = [] := by
      cases data with
      | nil => rfl
      | cons a l => simp at hlen
    subst hd
    rw [read_chunks_loop_nil _ _ _ _ (Or.inr rfl)]
    simp [ceilDiv_zero_left S hS]
  | succ n ih =>
    intro data hlen idx
    by_cases hd : data = []
    · subst hd
      rw [read_chunks_loop_nil _ _ _ _ (Or.inr rfl)]
      simp [ceilDiv_zero_left S hS]
    · rw [read_chunks_loop_cons S n idx data hS.ne' hd]
      have hdp : 0 < data.length := List.length_pos.mpr hd
      have hdrop : (data.drop S).length ≤ n := by
        rw [List.length_drop]; omega
      rw [List.length_cons, ih (data.drop S) hdrop (idx + 1), List.length_drop,
        ceilDiv_rec data.length S hS hdp]

theorem read_chunks_map_fst_aux (S : Nat) (hS : 0 < S) :
    ∀ (n : Nat) (data : List Byte), data.length ≤ n → ∀ idx,
      (read_chunks_loop S n idx data).map Prod.fst =
        List.range' idx (ceilDiv data.length S) := by
  intro n
  induction n with
  | zero =>
    intro data hlen idx
    have hd : data = [] := by
      cases data with
      | nil => rfl
      | cons a l => simp at hlen
    subst hd
    rw [read_chunks_loop_nil _ _ _ _ (Or.inr rfl)]
    simp [ceilDiv_zero_left S hS]
  | succ n ih =>
    intro data hlen idx
    by_cases hd : data = []
    · subst hd
      rw [read_chunks_loop_nil _ _ _ _ (Or.inr rfl)]
      simp [ceilDiv_zero_left S hS]
    · rw [read_chunks_loop_cons S n idx data hS.ne' hd]
      have hdp : 0 < data.length := List.length_pos.mpr hd
      have hdrop : (data.drop S).length ≤ n := by
        rw [List.length_drop]; omega
      rw [List.map_cons, ih (data.drop S) hdrop (idx + 1), List.length_drop,
        ceilDiv_rec data.length S hS hdp, List.range'_succ]

theorem read_chunks_flatten_aux (S : Nat) (hS : 0 < S) :
    ∀ (n : Nat) (data : List Byte), data.length ≤ n → ∀ idx,
      ((read_chunks_loop S n idx data).map Prod.snd).flatten = data := by
  intro n
  induction n with
  | zero =>
    intro data hlen idx
    have hd : data = [] := by
      cases data with
      | nil => rfl
      | cons a l => simp at hlen
    subst hd
    rw [read_chunks_loop_nil _ _ _ _ (Or.inr rfl)]
    rfl
  | succ n ih =>
    intro data hlen idx
    by_cases hd : data = []
    · subst hd
      rw [read_chunks_loop_nil _ _ _ _ (Or.inr rfl)]
      rfl
    · rw [read_chunks_loop_cons S n idx data hS.ne' hd]
      have hdp : 0 < data.length := List.length_pos.mpr hd
      have hdrop : (data.drop S).length ≤ n := by
        rw [List.length_drop]; omega
      rw [List.map_cons, List.flatten_cons, ih (data.drop S) hdrop (idx + 1)]
      exact List.take_append_drop S data

theorem read_chunks_dropLast_aux (S : Nat) (hS : 0 < S) :
    ∀ (n : Nat) (data : List Byte), data.length ≤ n → ∀ idx,
      ∀ c ∈ (read_chunks_loop S n idx data).dropLast, c.2.length = S := by
  intro n
  induction n with
  | zero =>
    intro data hlen idx c hc
    rw [read_chunks_loop_nil] at hc
    · simp at hc
    · right
      cases data with
      | nil => rfl
      | cons a l => simp at hlen
  | succ n ih =>
    intro data hlen idx c hc
    by_cases hd : data = []
    · subst hd
      rw [read_chunks_loop_nil _ _ _ _ (Or.inr rfl)] at hc
      simp at hc
    · rw [read_chunks_loop_cons S n idx data hS.ne' hd] at hc
      by_cases hrest : read_chunks_loop S n (idx + 1) (data.drop S) = []
      · rw [hrest] at hc
        simp [List.dropLast_single] at hc
      · have hdrop : data.drop S ≠ [] := by
          intro hcon
          exact hrest (by rw [hcon]; exact read_chunks_loop_nil _ _ _ _ (Or.inr rfl))
        have hSlt : S < data.length := by
          by_contra hcon
          exact hdrop (List.drop_eq_nil_of_le (by omega))
        obtain ⟨y, ys, hys⟩ := List.exists_cons_of_ne_nil hrest
        rw [hys, List.dropLast_cons₂, List.mem_cons] at hc
        rcases hc with hc | hc
        · subst hc
          simp [List.length_take]
          omega
        · have hdl : (data.drop S).length ≤ n := by
            rw [List.length_drop]; omega
          exact ih (data.drop S) hdl (idx + 1) c (by rw [hys]; exact hc)

theorem read_chunks_getLast_aux (S : Nat) (hS : 0 < S) :
    ∀ (n : Nat) (data : List Byte), data.length ≤ n → ∀ idx,
      ((read_chunks_loop S n idx data).map (fun c => c.2.length)).getLast? =
        (if data.length = 0 then none
         else some (if data.length % S = 0 then S else data.length % S)) := by
  intro n
  induction n with
  | zero =>
    intro data hlen idx
    have hd : data = [] := by
      cases data with
      | nil => rfl
      | cons a l => simp at hlen
    subst hd
    rw [read_chunks_loop_nil _ _ _ _ (Or.inr rfl)]
    rfl
  | succ n ih =>
    intro data hlen idx
    by_cases hd : data = []
    · subst hd
      rw [read_chunks_loop_nil _ _ _ _ (Or.inr rfl)]
      rfl
    · have hdp : 0 < data.length := List.length_pos.mpr hd
      rw [read_chunks_loop_cons S n idx data hS.ne' hd]
      by_cases hrest : read_chunks_loop S n (idx + 1) (data.drop S) = []
      · have hdrop : data.drop S = [] := by
          by_contra hcon
          have hlen2 : S < data.length := by
            by_contra hcon2
            exact hcon (List.drop_eq_nil_of_le (by omega))
          obtain ⟨m, rfl⟩ : ∃ m, n = m + 1 := ⟨n - 1, by omega⟩
          rw [read_chunks_loop_cons S m (idx + 1) (data.drop S) hS.ne' hcon] at hrest
          exact List.cons_ne_nil _ _ hrest
        have hle : data.length ≤ S := by
          by_contra hcon
          have hd2 : data.drop S ≠ [] := by
            intro hnil
            have := congrArg List.length hnil
            simp [List.length_drop] at this
            omega
          exact hd2 hdrop
        rw [hrest, List.map_cons, List.map_nil, List.getLast?_singleton]
        rw [if_neg (by omega), List.length_take]
        congr 1
        rcases Nat.lt_or_ge data.length S with hlt | hge
        · rw [if_neg (by rw [Nat.mod_eq_of_lt hlt]; omega), Nat.mod_eq_of_lt hlt]
          omega
        · have heq : data.length = S := by omega
          rw [heq]
          simp
      · obtain ⟨y, ys, hys⟩ := List.exists_cons_of_ne_nil hrest
        have hdrop : data.drop S ≠ [] := by
          intro hcon
          exact hrest (by rw [hcon]; exact read_chunks_loop_nil _ _ _ _ (Or.inr rfl))
        have hSlt : S < data.length := by
          by_contra hcon
          exact hdrop (List.drop_eq_nil_of_le (by omega))
        have hdl : (data.drop S).length ≤ n := by
          rw [List.length_drop]; omega
        have hih := ih (data.drop S) hdl (idx + 1)
        rw [hys, List.map_cons, List.length_drop] at hih
        rw [List.map_cons, hys, List.map_cons, List.getLast?_cons_cons, hih]
        rw [if_neg (by omega : ¬(data.length - S = 0)),
          ← Nat.mod_eq_sub_mod (le_of_lt hSlt),
          if_neg (by omega : ¬(data.length = 0))]

/-- C2: for every input byte stream of size `N` and chunk size `S > 0`, the
splitter produces exactly `ceil(N/S)` chunks, indices `0..ceil(N/S)-1` in
strictly increasing read order, every chunk except possibly the last has
payload length exactly `S`, the last has length `N mod S` (or `S` when
`N mod S = 0`), and concatenating the payloads in index order reproduces the
original `N` bytes. -/
theorem split_chunks_spec (S : Nat) (data : List Byte) (hS : 0 < S) :
    (split_chunks S data).length = ceilDiv data.length S ∧
    (split_chunks S data).map Prod.fst = List.range (ceilDiv data.length S) ∧
    (∀ c ∈ (split_chunks S data).dropLast, c.2.length = S) ∧
    ((split_chunks S data).map (fun c => c.2.length)).getLast? =
      (if data.length = 0 then none
       else some (if data.length % S = 0 then S else data.length % S)) ∧
    ((split_chunks S data).map Prod.snd).flatten = data := by
  unfold split_chunks read_chunks
  refine ⟨read_chunks_length_aux S hS data.length data le_rfl 0, ?_,
    read_chunks_dropLast_aux S hS data.length data le_rfl 0,
    read_chunks_getLast_aux S hS data.length data le_rfl 0,
    read_chunks_flatten_aux S hS data.length data le_rfl 0⟩
  rw [read_chunks_map_fst_aux S hS data.length data le_rfl 0, List.range_eq_range']

/-- Concrete instantiation of `split_chunks_spec` at `S = 3` and a 7-byte
stream. -/
theorem split_chunks_spec_witness :
    0 < 3 ∧
    ((split_chunks 3 [10, 11, 12, 13, 14, 15, 16]).length =
        ceilDiv [10, 11, 12, 13, 14, 15, 16].length 3 ∧
      (split_chunks 3 [10, 11, 12, 13, 14, 15, 16]).map Prod.fst =
        List.range (ceilDiv [10, 11, 12, 13, 14, 15, 16].length 3) ∧
      (∀ c ∈ (split_chunks 3 [10, 11, 12, 13, 14, 15, 16]).dropLast,
        c.2.length = 3) ∧
      ((split_chunks 3 [10, 11, 12, 13, 14, 15, 16]).map
          (fun c => c.2.length)).getLast? =
        (if [10, 11, 12, 13, 14, 15, 16].length = 0 then none
         else some (if [10, 11, 12, 13, 14, 15, 16].length % 3 = 0 then 3
           else [10, 11, 12, 13, 14, 15, 16].length % 3)) ∧
      ((split_chunks 3 [10, 11, 12, 13, 14, 15, 16]).map Prod.snd).flatten =
        [10, 11, 12, 13, 14, 15, 16]) :=
  ⟨by decide, split_chunks_spec 3 [10, 11, 12, 13, 14, 15, 16] (by decide)⟩

/-- Ordering on `(index, payload-or-locator)` pairs used by
`results.sort_by_key(|(idx, _)| *idx)` (main.rs:275): compare by index. -/
def keyLE {α : Type} (a b : Nat × α) : Prop := a.1 ≤ b.1

/-- Strict version of `keyLE`, used to state that the catalogued index
sequence is strictly increasing. -/
def keyLT {α : Type} (a b : Nat × α) : Prop := a.1 < b.1

instance {α : Type} : DecidableRel (@keyLE α) := fun a b => Nat.decLe a.1 b.1

instance {α : Type} : IsTotal (Nat × α) keyLE := ⟨fun a b => Nat.le_total a.1 b.1⟩

instance {α : Type} : IsTrans (Nat × α) keyLE := ⟨fun _ _ _ h1 h2 => Nat.le_trans h1 h2⟩

instance {α : Type} : IsAntisymm (Nat × α) (@keyLT α) :=
  ⟨fun a b h1 h2 => absurd (Nat.lt_trans h1 h2) (Nat.lt_irrefl a.1)⟩

/-- Model of `results.sort_by_key(|(idx, _)| *idx)` (main.rs:275): a stable
sort of the collected upload results by chunk index. -/
def sort_by_key {α : Type} (l : List (Nat × α)) : List (Nat × α) :=
  List.insertionSort keyLE l

theorem sort_by_key_perm {α : Type} (l : List (Nat × α)) :
    (sort_by_key l).Perm l :=
  List.perm_insertionSort keyLE l

/-- Sorting by index any permutation of a list whose indices are strictly
increasing recovers that list: the sort step, not completion order, fixes the
catalog order. -/
theorem sort_by_key_eq_of_perm {α : Type} (l tgt : List (Nat × α))
    (hperm : l.Perm tgt) (htgt : List.Pairwise keyLT tgt) :
    sort_by_key l = tgt := by
  have hp : (sort_by_key l).Perm tgt := (sort_by_key_perm l).trans hperm
  have hne : List.Pairwise (fun a b : Nat × α => a.1 ≠ b.1) tgt :=
    htgt.imp (fun h => Nat.ne_of_lt h)
  have hsymm : ∀ {x y : Nat × α}, x.1 ≠ y.1 → y.1 ≠ x.1 := fun h => Ne.symm h
  have hne2 : List.Pairwise (fun a b : Nat × α => a.1 ≠ b.1) (sort_by_key l) :=
    (List.Perm.pairwise_iff hsymm hp).mpr hne
  have hle : List.Pairwise keyLE (sort_by_key l) :=
    List.sorted_insertionSort keyLE l
  have hlt : List.Sorted keyLT (sort_by_key l) :=
    (hle.and hne2).imp (fun h => Nat.lt_of_le_of_ne h.1 h.2)
  exact List.eq_of_perm_of_sorted hp hlt htgt

/-- Keys stay strictly increasing through a key-preserving `filterMap`
(dropping permanently failed chunks keeps the surviving indices increasing). -/
theorem pairwise_keyLT_filterMap {α β : Type} (l : List (Nat × α))
    (g : Nat × α → Option (Nat × β))
    (hkey : ∀ c x, g c = some x → x.1 = c.1)
    (h : List.Pairwise keyLT l) : List.Pairwise keyLT (l.filterMap g) := by
  rw [List.pairwise_filterMap]
  refine h.imp ?_
  intro a b hab x hx y hy
  have hxa : x.1 = a.1 := hkey a x hx
  have hyb : y.1 = b.1 := hkey b y hy
  unfold keyLT at hab ⊢
  omega

/-- Success body of the upload endpoint as `upload_chunk_with_retry` inspects
it (main.rs:307-309): either the body fails JSON parsing (`r.json()?`
propagates an error), or it is JSON whose `id` field and
`attachments[0].url` field may each be present (a string) or absent.  The
fields are extracted with `.as_str().unwrap()`, which panics when absent. -/
inductive RespBody where
  | notJson : RespBody
  | json (msgId : Option String) (url : Option String) : RespBody
deriving DecidableEq

/-- Outcome of one `client.post(webhook).multipart(form).send()` attempt
(main.rs:296-298): a transport-level error (`Err`), an HTTP 429 response, or
any other HTTP response carrying a body. -/
inductive AttemptRes where
  | transportErr : AttemptRes
  | http429 : AttemptRes
  | httpOk (body : RespBody) : AttemptRes
deriving DecidableEq

/-- Observable outcome of the retry loop.  `attempts` is the final value of
the `attempts` counter and `sleeps` the list of back-off sleeps (seconds) in
order.  `crashed` records an `.unwrap()` panic (which unwinds out of the
rayon worker and aborts the whole ingestion — it is not an `Err` the caller
catches); `hung` means the loop was still running when the fuel ran out,
modelling non-termination. -/
inductive RunResult where
  | success (attempts : Nat) (sleeps : List Nat) (idx : Nat) (msgId url : String) : RunResult
  | failure (attempts : Nat) (sleeps : List Nat) : RunResult
  | crashed (attempts : Nat) (sleeps : List Nat) : RunResult
  | hung : RunResult
deriving DecidableEq

/-- The retry loop of `upload_chunk_with_retry` (main.rs:286-327), run on
explicit fuel.  `outs n` is the outcome of the n-th send (n counted from 1,
mirroring `attempts += 1` at the top of the loop); `rand429 n` is the value
`rand::rng().random_range(5..=15)` returns on iteration n.  Note the single
`attempts` counter: a 429 iteration increments it exactly as a transport
failure does, and the 429 branch never examines it.  On a transport error the
loop retries while `attempts < 5`, sleeping `2^attempts` seconds, and
otherwise returns the error.  On any non-429 response the body is parsed:
JSON failure returns the error (no retry); a missing `id` or missing
`attachments[0].url` field panics via `.unwrap()`. -/
def upload_chunk_with_retry (outs : Nat → AttemptRes) (rand429 : Nat → Nat)
    (idx : Nat) : Nat → Nat → List Nat → RunResult
  | 0, _, _ => .hung
  | fuel + 1, attempts, sleeps =>
    match outs (attempts + 1) with
    | .http429 =>
        upload_chunk_with_retry outs rand429 idx fuel (attempts + 1)
          (sleeps ++ [rand429 (attempts + 1)])
    | .httpOk .notJson => .failure (attempts + 1) sleeps
    | .httpOk (.json none _) => .crashed (attempts + 1) sleeps
    | .httpOk (.json (some _) none) => .crashed (attempts + 1) sleeps
    | .httpOk (.json (some m) (some u)) => .success (attempts + 1) sleeps idx m u
    | .transportErr =>
        if attempts + 1 < 5 then
          upload_chunk_with_retry outs rand429 idx fuel (attempts + 1)
            (sleeps ++ [2 ^ (attempts + 1)])
        else .failure (attempts + 1) sleeps

/-- C4: a chunk whose upload fails at the transport level on every attempt is
tried exactly 5 times, with a sleep of `2^attempt` seconds after each failed
attempt (counted from 1) that precedes another attempt, and after the 5th
failed attempt the error is returned as a permanent failure. -/
theorem transport_retry_spec (outs : Nat → AttemptRes) (rand429 : Nat → Nat)
    (idx fuel : Nat) (hout : ∀ n, outs n = AttemptRes.transportErr)
    (hfuel : 5 ≤ fuel) :
    upload_chunk_with_retry outs rand429 idx fuel 0 [] =
      RunResult.failure 5 [2, 4, 8, 16] := by
  obtain ⟨m, rfl⟩ : ∃ m, fuel = m + 5 := ⟨fuel - 5, by omega⟩
  simp [upload_chunk_with_retry, hout]

/-- Concrete instantiation of `transport_retry_spec`: a run of 6 fuel with an
always-failing transport. -/
theorem transport_retry_spec_witness :
    ((∀ n : Nat, (fun _ => AttemptRes.transportErr) n = AttemptRes.transportErr) ∧
      5 ≤ 6) ∧
    upload_chunk_with_retry (fun _ => AttemptRes.transportErr) (fun _ => 5) 0 6 0 [] =
      RunResult.failure 5 [2, 4, 8, 16] :=
  ⟨⟨fun _ => rfl, by decide⟩,
    transport_retry_spec (fun _ => AttemptRes.transportErr) (fun _ => 5) 0 6
      (fun _ => rfl) (by decide)⟩

theorem upload_step_429 (outs : Nat → AttemptRes) (rand429 : Nat → Nat)
    (idx fuel a : Nat) (s : List Nat) (h : outs (a + 1) = AttemptRes.http429) :
    upload_chunk_with_retry outs rand429 idx (fuel + 1) a s =
      upload_chunk_with_retry outs rand429 idx fuel (a + 1)
        (s ++ [rand429 (a + 1)]) := by
  simp only [upload_chunk_with_retry, h]

/-- Running the loop through `d` consecutive 429 responses advances the
attempt counter by `d` and appends the `d` sampled rate-limit sleeps. -/
theorem upload_429_prefix (outs : Nat → AttemptRes) (rand429 : Nat → Nat)
    (idx k : Nat) (houts : ∀ n, n ≤ k → outs n = AttemptRes.http429) :
    ∀ (d fuel j : Nat) (s : List Nat), j + d = k →
      upload_chunk_with_retry outs rand429 idx (fuel + d) j s =
        upload_chunk_with_retry outs rand429 idx fuel k
          (s ++ (List.range' (j + 1) d).map rand429) := by
  intro d
  induction d with
  | zero =>
    intro fuel j s hjk
    have hj : j = k := by omega
    subst hj
    simp
  | succ d ih =>
    intro fuel j s hjk
    have h1 : outs (j + 1) = AttemptRes.http429 := houts _ (by omega)
    rw [(by omega : fuel + (d + 1) = (fuel + d) + 1),
      upload_step_429 outs rand429 idx (fuel + d) j s h1,
      ih fuel (j + 1) _ (by omega), List.range'_succ, List.map_cons]
    simp

/-- Attempt oracle for the counterexample: the endpoint answers HTTP 429 on
the first four attempts and fails at the transport level from then on. -/
def outs429then4 : Nat → AttemptRes :=
  fun n => if n ≤ 4 then AttemptRes.http429 else AttemptRes.transportErr

/-- Counterexample to C5: after 4 rate-limit responses, the very next
transport failure is already attempt 5, so the loop returns a permanent
failure after a single transport attempt (5 attempts in total, the four
sleeps all being rate-limit sleeps) — it does not make the 5 further
transport attempts (9 in total) an independent counter would allow. -/
theorem rate_limit_budget_cex :
    upload_chunk_with_retry outs429then4 (fun _ => 5) 7 20 0 [] =
      RunResult.failure 5 [5, 5, 5, 5] ∧
    ∀ s, upload_chunk_with_retry outs429then4 (fun _ => 5) 7 20 0 [] ≠
      RunResult.failure 9 s := by
  refine ⟨by decide, ?_⟩
  intro s h
  rw [(by decide : upload_chunk_with_retry outs429then4 (fun _ => 5) 7 20 0 [] =
    RunResult.failure 5 [5, 5, 5, 5])] at h
  simp at h

/-- C5 amended: an HTTP 429 response is retried with no attempt cap (with an
all-429 endpoint the loop never terminates, whatever the fuel), each retry
preceded by a sleep drawn from `random_range(5..=15)`; but the rate-limit
retries share the single `attempts` counter with transport failures, so after
`k ≥ 4` consecutive 429 responses a subsequent run of transport failures is
cut off at the first one: the loop ends in permanent failure at attempt
`k + 1`, having made one transport attempt instead of five. -/
theorem rate_limit_retry_amended (outsAll outs : Nat → AttemptRes)
    (rand429 : Nat → Nat) (idx k fuel : Nat)
    (hall : ∀ n, outsAll n = AttemptRes.http429)
    (houts : ∀ n, outs n = if n ≤ k then AttemptRes.http429 else AttemptRes.transportErr)
    (hrand : ∀ n, 5 ≤ rand429 n ∧ rand429 n ≤ 15)
    (hk : 4 ≤ k) (hfuel : k + 1 ≤ fuel) :
    (∀ (f a : Nat) (s : List Nat),
      upload_chunk_with_retry outsAll rand429 idx f a s = RunResult.hung) ∧
    upload_chunk_with_retry outs rand429 idx fuel 0 [] =
      RunResult.failure (k + 1) ((List.range' 1 k).map rand429) ∧
    (∀ x ∈ (List.range' 1 k).map rand429, 5 ≤ x ∧ x ≤ 15) := by
  refine ⟨?_, ?_, ?_⟩
  · intro f
    induction f with
    | zero => intro a s; rfl
    | succ f ih =>
      intro a s
      rw [upload_step_429 outsAll rand429 idx f a s (hall (a + 1))]
      exact ih _ _
  · have h429 : ∀ n, n ≤ k → outs n = AttemptRes.http429 := by
      intro n hn
      rw [houts n, if_pos hn]
    have htrans : outs (k + 1) = AttemptRes.transportErr := by
      rw [houts (k + 1), if_neg (by omega)]
    rw [(by omega : fuel = (fuel - k) + k),
      upload_429_prefix outs rand429 idx k h429 k (fuel - k) 0 [] (by omega),
      (by omega : fuel - k = (fuel - k - 1) + 1)]
    simp only [upload_chunk_with_retry, htrans, List.nil_append]
    rw [if_neg (by omega : ¬(k + 1 < 5))]
  · intro x hx
    rw [List.mem_map] at hx
    obtain ⟨n, _, rfl⟩ := hx
    exact hrand n

/-- Concrete instantiation of `rate_limit_retry_amended` at `k = 4`,
`fuel = 6`. -/
theorem rate_limit_retry_amended_witness :
    ((∀ n : Nat, (fun _ => AttemptRes.http429) n = AttemptRes.http429) ∧
      (∀ n : Nat, outs429then4 n =
        if n ≤ 4 then AttemptRes.http429 else AttemptRes.transportErr) ∧
      (∀ n : Nat, 5 ≤ (fun _ => 5) n ∧ (fun _ => 5) n ≤ 15) ∧
      4 ≤ 4 ∧ 4 + 1 ≤ 6) ∧
    ((∀ (f a : Nat) (s : List Nat),
      upload_chunk_with_retry (fun _ => AttemptRes.http429) (fun _ => 5) 7 f a s =
        RunResult.hung) ∧
    upload_chunk_with_retry outs429then4 (fun _ => 5) 7 6 0 [] =
      RunResult.failure (4 + 1) ((List.range' 1 4).map (fun _ => 5)) ∧
    (∀ x ∈ (List.range' 1 4).map (fun _ => 5), 5 ≤ x ∧ x ≤ 15)) :=
  ⟨⟨fun _ => rfl, fun _ => rfl,
    fun _ => ⟨(by decide : (5:Nat) ≤ 5), (by decide : (5:Nat) ≤ 15)⟩,
    by decide, by decide⟩,
    rate_limit_retry_amended (fun _ => AttemptRes.http429) outs429then4
      (fun _ => 5) 7 4 6 (fun _ => rfl) (fun _ => rfl)
      (fun _ => ⟨(by decide : (5:Nat) ≤ 5), (by decide : (5:Nat) ≤ 15)⟩)
      (by decide) (by decide)⟩

/-- Counterexample to C6: a response whose JSON body lacks the `id` field
makes `json["id"].as_str().unwrap()` panic (main.rs:308).  The panic unwinds
out of the rayon worker and aborts the whole ingestion — it is not an `Err`
caught by the per-chunk handler (main.rs:262-264), so the outcome is not a
per-chunk permanent failure the way transport exhaustion is. -/
theorem parse_failure_cex :
    upload_chunk_with_retry
      (fun _ => AttemptRes.httpOk (RespBody.json none (some "u")))
      (fun _ => 5) 2 10 0 [] = RunResult.crashed 1 [] ∧
    ∀ (a : Nat) (s : List Nat), RunResult.crashed 1 [] ≠ RunResult.failure a s :=
  ⟨by decide, fun _ _ h => RunResult.noConfusion h⟩

/-- C6 amended: a response body that is not parseable JSON is returned as a
non-retried permanent per-chunk failure after a single attempt, exactly like
transport exhaustion; but a JSON body missing the identifier field, or
missing the attachment URL field, instead panics via `.unwrap()` after a
single attempt, aborting the whole ingestion rather than surfacing as a
per-chunk failure. -/
theorem parse_failure_amended (outs1 outs2 outs3 : Nat → AttemptRes)
    (rand429 : Nat → Nat) (idx fuel : Nat) (m : String) (u : Option String)
    (h1 : outs1 1 = AttemptRes.httpOk RespBody.notJson)
    (h2 : outs2 1 = AttemptRes.httpOk (RespBody.json none u))
    (h3 : outs3 1 = AttemptRes.httpOk (RespBody.json (some m) none)) :
    upload_chunk_with_retry outs1 rand429 idx (fuel + 1) 0 [] =
      RunResult.failure 1 [] ∧
    upload_chunk_with_retry outs2 rand429 idx (fuel + 1) 0 [] =
      RunResult.crashed 1 [] ∧
    upload_chunk_with_retry outs3 rand429 idx (fuel + 1) 0 [] =
      RunResult.crashed 1 [] := by
  refine ⟨?_, ?_, ?_⟩
  · simp only [upload_chunk_with_retry, Nat.zero_add, h1]
  · simp only [upload_chunk_with_retry, Nat.zero_add, h2]
  · simp only [upload_chunk_with_retry, Nat.zero_add, h3]

/-- Concrete instantiation of `parse_failure_amended`. -/
theorem parse_failure_amended_witness :
    ((fun _ : Nat => AttemptRes.httpOk RespBody.notJson) 1 =
        AttemptRes.httpOk RespBody.notJson ∧
      (fun _ : Nat => AttemptRes.httpOk (RespBody.json none (some "u"))) 1 =
        AttemptRes.httpOk (RespBody.json none (some "u")) ∧
      (fun _ : Nat => AttemptRes.httpOk (RespBody.json (some "m") none)) 1 =
        AttemptRes.httpOk (RespBody.json (some "m") none)) ∧
    (upload_chunk_with_retry (fun _ => AttemptRes.httpOk RespBody.notJson)
        (fun _ => 5) 3 (9 + 1) 0 [] = RunResult.failure 1 [] ∧
      upload_chunk_with_retry
        (fun _ => AttemptRes.httpOk (RespBody.json none (some "u")))
        (fun _ => 5) 3 (9 + 1) 0 [] = RunResult.crashed 1 [] ∧
      upload_chunk_with_retry
        (fun _ => AttemptRes.httpOk (RespBody.json (some "m") none))
        (fun _ => 5) 3 (9 + 1) 0 [] = RunResult.crashed 1 []) :=
  ⟨⟨rfl, rfl, rfl⟩,
    parse_failure_amended
      (fun _ => AttemptRes.httpOk RespBody.notJson)
      (fun _ => AttemptRes.httpOk (RespBody.json none (some "u")))
      (fun _ => AttemptRes.httpOk (RespBody.json (some "m") none))
      (fun _ => 5) 3 9 "m" (some "u") rfl rfl rfl⟩

/-- A row of the `files` table (schema at main.rs:331-337). -/
structure FileRow where
  id : Nat
  filename : String
  filesize : Nat
  chunk_size : Nat
  created_at : String
deriving DecidableEq

/-- A row of the `file_chunks` table (schema at main.rs:341-346; `ingest_file`
inserts with the column list `(file_id, idx, message_id, url)`,
main.rs:277-280). -/
structure ChunkRow where
  file_id : Nat
  idx : Nat
  url : String
  message_id : String
deriving DecidableEq

/-- A row of the `chunks` table that `verify_file` queries (main.rs:419):
`(file_id, idx, data, sha256)`, a chunk payload together with its stored hex
digest.  `init_schema` has no CREATE TABLE for it and no statement in the
program inserts into it. -/
structure ChunkDataRow where
  file_id : Nat
  idx : Nat
  data : List Byte
  sha256 : String
deriving DecidableEq

/-- The catalog database: the row lists of the tables touched by the claims,
plus the `chunks` table `verify_file` reads (carried here so its reads can be
modelled; in a catalog created by `init_schema` that table does not even
exist).  `next_file_id` models the `files` AUTOINCREMENT counter as read back
through `last_insert_rowid()` (main.rs:229). -/
structure DB where
  files : List FileRow
  file_chunks : List ChunkRow
  chunks : List ChunkDataRow
  next_file_id : Nat
deriving DecidableEq

/-- A freshly created catalog: no rows, first AUTOINCREMENT id 1. -/
def DB.empty : DB := ⟨[], [], [], 1⟩

/-- Table names created by `init_schema` (main.rs:329-361), one per CREATE
TABLE statement. -/
def init_schema_tables : List String := ["files", "file_chunks", "directories"]

/-- Tables written by `ingest_file`, one per INSERT statement
(main.rs:219-228 and main.rs:276-281). -/
def ingest_file_tables_written : List String := ["files", "file_chunks"]

/-- Table named in the SELECT of `verify_file` (main.rs:418-419). -/
def verify_file_table_read : String := "chunks"

/-- Failures `ingest_file` propagates that the claims distinguish: a local
I/O error from the chunk-read loop (`f.read(&mut buffer)?`, main.rs:240). -/
inductive IngestErr where
  | ioError : IngestErr
deriving DecidableEq

/-- Model of `ingest_file` (main.rs:209-284).  Oracles:
`meta_size` is `f.metadata()?.len()`; `read_data` is the outcome of the
reads of the chunk-read loop (`.error` models a failed `f.read(...)?`, which can
only happen after the `files` row is inserted); `now` is the RFC 3339
timestamp; `upload i d` is the outcome of `upload_chunk_with_retry` for chunk
`(i, d)` — `some (message_id, url)` on success, `none` for a permanent
failure, which the worker only logs (main.rs:262-264); `sched` is the order
in which the concurrently completing workers pushed their results into the
shared `results` vector (theorems constrain it to a permutation).  After all
batches finish, the results are sorted by chunk index and inserted; the
function returns `Ok(file_id)` whether or not any chunk succeeded. -/
def ingest_file (db : DB) (filename now : String) (meta_size : Nat)
    (read_data : Except Unit (List Byte)) (chunk_size : Nat)
    (upload : Nat → List Byte → Option (String × String))
    (sched : List (Nat × String × String) → List (Nat × String × String)) :
    DB × Except IngestErr Nat :=
  let fid := db.next_file_id
  let db1 : DB := { db with
    files := db.files ++ [⟨fid, filename, meta_size, chunk_size, now⟩],
    next_file_id := fid + 1 }
  match read_data with
  | .error _ => (db1, .error .ioError)
  | .ok data =>
    let chunks := split_chunks chunk_size data
    let successes := chunks.filterMap
      (fun c => (upload c.1 c.2).map (fun loc => (c.1, loc)))
    let results := sort_by_key (sched successes)
    let db2 : DB := { db1 with
      file_chunks := db1.file_chunks ++
        results.map (fun r => ⟨fid, r.1, r.2.2, r.2.1⟩) }
    (db2, .ok fid)

/-- The query `SELECT idx, url FROM file_chunks WHERE file_id = ?1 ORDER BY
idx ASC` (main.rs:190): the rows of the file ordered by ascending index (the
ORDER BY is modelled as a stable sort on the `idx` key). -/
def query_chunks (db : DB) (file_id : Nat) : List ChunkRow :=
  (sort_by_key ((db.file_chunks.filter (fun c => c.file_id == file_id)).map
    (fun c => (c.idx, c)))).map Prod.snd

/-- Model of `export_file` (main.rs:167-207): fetch the filename (the
single-row query fails when no `files` row matches, aborting with an error),
then stream each catalogued chunk in ascending-index order through the proxy
and concatenate the response bodies.  `remote url` is the body returned by
the GET of `{proxy_base}/?{url}`. -/
def export_file (db : DB) (file_id : Nat) (remote : String → List Byte) :
    Except Unit (List Byte) :=
  match db.files.find? (fun f => f.id == file_id) with
  | none => .error ()
  | some _ =>
    .ok (((query_chunks db file_id).map (fun c => remote c.url)).flatten)

/-- Model of `verify_file` (main.rs:415-437): scan the `chunks` rows of the
file, recompute the digest of each `data` payload with the hash oracle `sha`,
and return the aggregate flag — `true` exactly when no scanned row
mismatched, in particular when there are no rows at all. -/
def verify_file (db : DB) (file_id : Nat) (sha : List Byte → String) : Bool :=
  (db.chunks.filter (fun c => c.file_id == file_id)).all
    (fun c => sha c.data == c.sha256)

theorem ingest_file_files (db : DB) (filename now : String) (meta_size : Nat)
    (read_data : Except Unit (List Byte)) (S : Nat)
    (upload : Nat → List Byte → Option (String × String))
    (sched : List (Nat × String × String) → List (Nat × String × String)) :
    (ingest_file db filename now meta_size read_data S upload sched).1.files =
      db.files ++ [⟨db.next_file_id, filename, meta_size, S, now⟩] := by
  cases read_data with
  | error e => rfl
  | ok data => rfl

theorem ingest_file_chunks_table (db : DB) (filename now : String)
    (meta_size : Nat) (read_data : Except Unit (List Byte)) (S : Nat)
    (upload : Nat → List Byte → Option (String × String))
    (sched : List (Nat × String × String) → List (Nat × String × String)) :
    (ingest_file db filename now meta_size read_data S upload sched).1.chunks =
      db.chunks := by
  cases read_data with
  | error e => rfl
  | ok data => rfl

theorem split_chunks_map_fst (S : Nat) (data : List Byte) (hS : 0 < S) :
    (split_chunks S data).map Prod.fst = List.range (ceilDiv data.length S) := by
  unfold split_chunks read_chunks
  rw [read_chunks_map_fst_aux S hS data.length data le_rfl 0, List.range_eq_range']

theorem split_chunks_pairwise_key (S : Nat) (data : List Byte) (hS : 0 < S) :
    List.Pairwise keyLT (split_chunks S data) := by
  have h := List.pairwise_lt_range (ceilDiv data.length S)
  rw [← split_chunks_map_fst S data hS, List.pairwise_map] at h
  exact h

theorem split_chunks_flatten (S : Nat) (data : List Byte) (hS : 0 < S) :
    ((split_chunks S data).map Prod.snd).flatten = data := by
  unfold split_chunks read_chunks
  exact read_chunks_flatten_aux S hS data.length data le_rfl 0

/-- When every chunk upload succeeds, the rows inserted by `ingest_file` are
exactly the chunks in index order, whatever order the workers completed in:
the sort by index collapses the completion permutation. -/
theorem ingest_file_all_success (db : DB) (filename now : String)
    (meta_size : Nat) (data : List Byte) (S : Nat)
    (uploadOk : Nat → List Byte → String × String)
    (upload : Nat → List Byte → Option (String × String))
    (sched : List (Nat × String × String) → List (Nat × String × String))
    (hS : 0 < S)
    (hupload : ∀ i d, upload i d = some (uploadOk i d))
    (hsched : ∀ l, (sched l).Perm l) :
    (ingest_file db filename now meta_size (Except.ok data) S upload sched).1.file_chunks =
      db.file_chunks ++ (split_chunks S data).map
        (fun c => ⟨db.next_file_id, c.1, (uploadOk c.1 c.2).2, (uploadOk c.1 c.2).1⟩) := by
  have hg : (fun c : Nat × List Byte => (upload c.1 c.2).map (fun loc => (c.1, loc))) =
      (some ∘ fun c : Nat × List Byte => (c.1, uploadOk c.1 c.2)) := by
    funext c
    rw [hupload c.1 c.2]
    rfl
  have hpw2 : List.Pairwise keyLT
      ((split_chunks S data).map (fun c : Nat × List Byte => (c.1, uploadOk c.1 c.2))) := by
    rw [List.pairwise_map]
    exact split_chunks_pairwise_key S data hS
  have h0 : (ingest_file db filename now meta_size (Except.ok data) S upload sched).1.file_chunks =
      db.file_chunks ++ (sort_by_key (sched ((split_chunks S data).filterMap
        (fun c => (upload c.1 c.2).map (fun loc => (c.1, loc)))))).map
        (fun r => (⟨db.next_file_id, r.1, r.2.2, r.2.1⟩ : ChunkRow)) := rfl
  rw [h0, hg, List.filterMap_eq_map,
    sort_by_key_eq_of_perm _ _ (hsched _) hpw2, List.map_map]
  rfl

/-- A block of fresh rows with strictly increasing indices appended to rows
of other files is returned as-is by the ordered chunk query. -/
theorem query_chunks_eq (db : DB) (fid : Nat) (old newRows : List ChunkRow)
    (hdb : db.file_chunks = old ++ newRows)
    (hfresh : ∀ c ∈ old, c.file_id ≠ fid)
    (hnew : ∀ c ∈ newRows, c.file_id = fid)
    (hsorted : List.Pairwise (fun a b : ChunkRow => a.idx < b.idx) newRows) :
    query_chunks db fid = newRows := by
  unfold query_chunks
  rw [hdb, List.filter_append]
  have hold : old.filter (fun c => c.file_id == fid) = [] := by
    rw [List.filter_eq_nil_iff]
    intro a ha
    simp [hfresh a ha]
  have hnewf : newRows.filter (fun c => c.file_id == fid) = newRows := by
    rw [List.filter_eq_self]
    intro a ha
    simp [hnew a ha]
  rw [hold, hnewf, List.nil_append]
  have hpairs : List.Pairwise keyLT (newRows.map (fun c => (c.idx, c))) := by
    rw [List.pairwise_map]
    exact hsorted
  rw [sort_by_key_eq_of_perm _ _ (List.Perm.refl _) hpairs, List.map_map]
  have hid : (Prod.snd ∘ fun c : ChunkRow => (c.idx, c)) = id := rfl
  rw [hid, List.map_id]

/-- After a fully successful ingestion into a catalog holding no rows of the
new file id, the ordered chunk query returns exactly the new rows, in index
order. -/
theorem query_after_all_success (db : DB) (filename now : String)
    (meta_size : Nat) (data : List Byte) (S : Nat)
    (uploadOk : Nat → List Byte → String × String)
    (upload : Nat → List Byte → Option (String × String))
    (sched : List (Nat × String × String) → List (Nat × String × String))
    (hS : 0 < S)
    (hupload : ∀ i d, upload i d = some (uploadOk i d))
    (hsched : ∀ l, (sched l).Perm l)
    (hfresh : ∀ c ∈ db.file_chunks, c.file_id ≠ db.next_file_id) :
    query_chunks (ingest_file db filename now meta_size (Except.ok data) S upload sched).1
        db.next_file_id =
      (split_chunks S data).map
        (fun c => ⟨db.next_file_id, c.1, (uploadOk c.1 c.2).2, (uploadOk c.1 c.2).1⟩) := by
  refine query_chunks_eq _ _ db.file_chunks _
    (ingest_file_all_success db filename now meta_size data S uploadOk upload sched
      hS hupload hsched) hfresh ?_ ?_
  · intro c hc
    rw [List.mem_map] at hc
    obtain ⟨a, -, rfl⟩ := hc
    rfl
  · rw [List.pairwise_map]
    exact split_chunks_pairwise_key S data hS

/-- C1: ingesting a file and exporting the returned identifier yields output
byte-identical to the original, for every content and every chunk size
`S > 0`, provided every chunk upload succeeds and the remote endpoint returns
each uploaded chunk payload faithfully — whatever order the concurrent
uploads completed in and whatever rows other files already have. -/
theorem ingest_export_round_trip (db : DB) (filename now : String)
    (data : List Byte) (S : Nat)
    (uploadOk : Nat → List Byte → String × String)
    (upload : Nat → List Byte → Option (String × String))
    (sched : List (Nat × String × String) → List (Nat × String × String))
    (remote : String → List Byte)
    (hS : 0 < S)
    (hupload : ∀ i d, upload i d = some (uploadOk i d))
    (hsched : ∀ l, (sched l).Perm l)
    (hremote : ∀ c ∈ split_chunks S data, remote (uploadOk c.1 c.2).2 = c.2)
    (hfresh : ∀ c ∈ db.file_chunks, c.file_id ≠ db.next_file_id) :
    export_file
      (ingest_file db filename now data.length (Except.ok data) S upload sched).1
      db.next_file_id remote = Except.ok data := by
  rcases hfq : (ingest_file db filename now data.length (Except.ok data) S upload
      sched).1.files.find? (fun f => f.id == db.next_file_id) with _ | f
  · rw [List.find?_eq_none] at hfq
    have hmem : (⟨db.next_file_id, filename, data.length, S, now⟩ : FileRow) ∈
        (ingest_file db filename now data.length (Except.ok data) S upload
          sched).1.files := by
      rw [ingest_file_files]
      simp
    have := hfq _ hmem
    simp at this
  · unfold export_file
    rw [hfq]
    show Except.ok (((query_chunks
        (ingest_file db filename now data.length (Except.ok data) S upload sched).1
        db.next_file_id).map (fun c => remote c.url)).flatten) = Except.ok data
    rw [query_after_all_success db filename now data.length data S uploadOk upload
      sched hS hupload hsched hfresh, List.map_map]
    have hmapped : (split_chunks S data).map ((fun c : ChunkRow => remote c.url) ∘
        (fun c : Nat × List Byte =>
          (⟨db.next_file_id, c.1, (uploadOk c.1 c.2).2, (uploadOk c.1 c.2).1⟩ : ChunkRow))) =
        (split_chunks S data).map Prod.snd := by
      apply List.map_congr_left
      intro a ha
      exact hremote a ha
    rw [hmapped, split_chunks_flatten S data hS]

/-- Witness fixtures for the round trip: a 27-byte file (`10*S + 7` with
`S = 2`), uploads succeeding with URL `"u<idx>"`, a remote store returning
exactly the uploaded payloads, and a reversed completion order. -/
def dataW : List Byte := List.range 27

/-- Upload locator oracle for the witness run. -/
def uploadOkW : Nat → List Byte → String × String := fun i _ => ("m", "u" ++ toString i)

/-- Faithful remote store for the witness run: returns the payload uploaded
under each URL. -/
def remoteW : String → List Byte := fun u =>
  ((split_chunks 2 dataW).find? (fun c => ("u" ++ toString c.1) == u)).elim [] Prod.snd

/-- Concrete instantiation of `ingest_export_round_trip`: 27 bytes, chunk
size 2, uploads completing in reverse order. -/
theorem ingest_export_round_trip_witness :
    (0 < 2 ∧
      (∀ (i : Nat) (d : List Byte),
        (fun (i : Nat) (d : List Byte) => some (uploadOkW i d)) i d =
          some (uploadOkW i d)) ∧
      (∀ l : List (Nat × String × String), l.reverse.Perm l) ∧
      (∀ c ∈ split_chunks 2 dataW, remoteW (uploadOkW c.1 c.2).2 = c.2) ∧
      (∀ c ∈ DB.empty.file_chunks, c.file_id ≠ DB.empty.next_file_id)) ∧
    export_file
      (ingest_file DB.empty "f" "t" dataW.length (Except.ok dataW) 2
        (fun i d => some (uploadOkW i d)) List.reverse).1
      DB.empty.next_file_id remoteW = Except.ok dataW :=
  ⟨⟨by decide, fun _ _ => rfl, fun l => List.reverse_perm l, by decide,
    fun c hc => absurd hc (List.not_mem_nil c)⟩,
    ingest_export_round_trip DB.empty "f" "t" dataW 2 uploadOkW
      (fun i d => some (uploadOkW i d)) List.reverse remoteW (by decide)
      (fun _ _ => rfl) (fun l => List.reverse_perm l) (by decide)
      (fun c hc => absurd hc (List.not_mem_nil c))⟩

/-- Counterexample to C3: three chunks, the upload of chunk 1 fails
permanently (the worker only logs it, main.rs:262-264), the others succeed.
The catalogued index sequence queried by ascending index is `[0, 2]`: it is
not `0..k-1` for any `k` — a gap, despite the sort step. -/
theorem catalog_order_cex :
    (query_chunks (ingest_file DB.empty "f" "t" 3 (Except.ok [1, 2, 3]) 1
        (fun i _ => if i = 1 then none else some ("m", "u")) id).1 1).map
      (fun c => c.idx) = [0, 2] ∧
    ¬∃ k, [0, 2] = List.range k := by
  refine ⟨by decide, ?_⟩
  rintro ⟨k, hk⟩
  have hlen := congrArg List.length hk
  simp at hlen
  subst hlen
  exact absurd hk (by decide)

/-- C3 amended: provided every chunk upload succeeds, the catalogued chunks
of the new file, queried by ascending index, carry exactly the indices
`0..k-1` with `k = ceil(N/S)` — contiguous, no gaps, no duplicates —
regardless of the order in which the concurrent uploads completed, because
the result set is sorted by index before insertion.  (When an upload fails
permanently its index is silently absent, leaving a gap: see the
counterexample.) -/
theorem catalog_order_amended (db : DB) (filename now : String) (meta_size : Nat)
    (data : List Byte) (S : Nat)
    (uploadOk : Nat → List Byte → String × String)
    (upload : Nat → List Byte → Option (String × String))
    (sched : List (Nat × String × String) → List (Nat × String × String))
    (hS : 0 < S)
    (hupload : ∀ i d, upload i d = some (uploadOk i d))
    (hsched : ∀ l, (sched l).Perm l)
    (hfresh : ∀ c ∈ db.file_chunks, c.file_id ≠ db.next_file_id) :
    (query_chunks (ingest_file db filename now meta_size (Except.ok data) S upload sched).1
        db.next_file_id).map (fun c => c.idx) =
      List.range (ceilDiv data.length S) := by
  rw [query_after_all_success db filename now meta_size data S uploadOk upload sched
    hS hupload hsched hfresh, List.map_map]
  show (split_chunks S data).map Prod.fst = List.range (ceilDiv data.length S)
  exact split_chunks_map_fst S data hS

/-- Concrete instantiation of `catalog_order_amended`: three 1-byte chunks
completing in reverse order. -/
theorem catalog_order_amended_witness :
    (0 < 1 ∧
      (∀ (i : Nat) (d : List Byte),
        (fun (_ : Nat) (_ : List Byte) => some (("m", "u") : String × String)) i d =
          some ((fun (_ : Nat) (_ : List Byte) => (("m", "u") : String × String)) i d)) ∧
      (∀ l : List (Nat × String × String), l.reverse.Perm l) ∧
      (∀ c ∈ DB.empty.file_chunks, c.file_id ≠ DB.empty.next_file_id)) ∧
    (query_chunks (ingest_file DB.empty "f" "t" 3 (Except.ok [7, 8, 9]) 1
        (fun _ _ => some ("m", "u")) List.reverse).1
        DB.empty.next_file_id).map (fun c => c.idx) =
      List.range (ceilDiv ([7, 8, 9] : List Byte).length 1) :=
  ⟨⟨by decide, fun _ _ => rfl, fun l => List.reverse_perm l,
    fun c hc => absurd hc (List.not_mem_nil c)⟩,
    catalog_order_amended DB.empty "f" "t" 3 [7, 8, 9] 1
      (fun _ _ => ("m", "u")) (fun _ _ => some ("m", "u")) List.reverse
      (by decide) (fun _ _ => rfl) (fun l => List.reverse_perm l)
      (fun c hc => absurd hc (List.not_mem_nil c))⟩

/-- C7: evaluating the code at the failing input `chunk_size = 0` on the
3-byte file `[1, 2, 3]`: the read loop reads into an empty buffer, gets 0
and stops, so no chunk is produced and no `InvalidArgument` (or any) error is
raised; the `files` row is inserted and ingestion returns `Ok(1)` — the
file content is silently lost. -/
theorem zero_chunk_size_eval :
    split_chunks 0 [1, 2, 3] = [] ∧
    (ingest_file DB.empty "f" "t" 3 (Except.ok [1, 2, 3]) 0
        (fun _ _ => some ("m", "u")) id).2 = Except.ok 1 ∧
    (ingest_file DB.empty "f" "t" 3 (Except.ok [1, 2, 3]) 0
        (fun _ _ => some ("m", "u")) id).1.file_chunks = [] ∧
    (ingest_file DB.empty "f" "t" 3 (Except.ok [1, 2, 3]) 0
        (fun _ _ => some ("m", "u")) id).1.files = [⟨1, "f", 3, 0, "t"⟩] :=
  ⟨by decide, rfl, by decide, by decide⟩

/-- Counterexample to C8: every upload of the 3 chunks fails permanently, yet
ingestion returns `Ok(1)` rather than an error, leaving a `files` record with
zero chunk rows. -/
theorem zero_success_cex :
    (ingest_file DB.empty "f" "t" 3 (Except.ok [1, 2, 3]) 1
        (fun _ _ => none) id).2 = Except.ok 1 ∧
    (ingest_file DB.empty "f" "t" 3 (Except.ok [1, 2, 3]) 1
        (fun _ _ => none) id).1.file_chunks = [] ∧
    (ingest_file DB.empty "f" "t" 3 (Except.ok [1, 2, 3]) 1
        (fun _ _ => none) id).1.files = [⟨1, "f", 3, 1, "t"⟩] :=
  ⟨rfl, by decide, by decide⟩

/-- C8 amended: when zero chunks succeed, ingestion still returns the new
file identifier (no `IngestionError` path exists for it in the source); the
`files` row stays and no `file_chunks` row is written. -/
theorem zero_success_amended (db : DB) (filename now : String) (meta_size : Nat)
    (data : List Byte) (S : Nat)
    (upload : Nat → List Byte → Option (String × String))
    (sched : List (Nat × String × String) → List (Nat × String × String))
    (hupload : ∀ i d, upload i d = none)
    (hsched : ∀ l, (sched l).Perm l) :
    (ingest_file db filename now meta_size (Except.ok data) S upload sched).2 =
      Except.ok db.next_file_id ∧
    (ingest_file db filename now meta_size (Except.ok data) S upload sched).1.file_chunks =
      db.file_chunks ∧
    (ingest_file db filename now meta_size (Except.ok data) S upload sched).1.files =
      db.files ++ [⟨db.next_file_id, filename, meta_size, S, now⟩] := by
  refine ⟨rfl, ?_,
    ingest_file_files db filename now meta_size (Except.ok data) S upload sched⟩
  have h0 : (ingest_file db filename now meta_size (Except.ok data) S upload sched).1.file_chunks =
      db.file_chunks ++ (sort_by_key (sched ((split_chunks S data).filterMap
        (fun c => (upload c.1 c.2).map (fun loc => (c.1, loc)))))).map
        (fun r => (⟨db.next_file_id, r.1, r.2.2, r.2.1⟩ : ChunkRow)) := rfl
  have hnil : (split_chunks S data).filterMap
      (fun c => (upload c.1 c.2).map (fun loc => (c.1, loc))) = [] := by
    rw [List.filterMap_eq_nil_iff]
    intro a ha
    rw [hupload a.1 a.2]
    rfl
  rw [h0, hnil, (hsched []).eq_nil]
  simp [sort_by_key, List.insertionSort]

/-- Concrete instantiation of `zero_success_amended`. -/
theorem zero_success_amended_witness :
    ((∀ (i : Nat) (d : List Byte),
        (fun (_ : Nat) (_ : List Byte) =>
          (none : Option (String × String))) i d = none) ∧
      (∀ l : List (Nat × String × String), l.reverse.Perm l)) ∧
    ((ingest_file DB.empty "f" "t" 3 (Except.ok [1, 2, 3]) 1
        (fun _ _ => none) List.reverse).2 = Except.ok DB.empty.next_file_id ∧
      (ingest_file DB.empty "f" "t" 3 (Except.ok [1, 2, 3]) 1
        (fun _ _ => none) List.reverse).1.file_chunks = DB.empty.file_chunks ∧
      (ingest_file DB.empty "f" "t" 3 (Except.ok [1, 2, 3]) 1
        (fun _ _ => none) List.reverse).1.files =
        DB.empty.files ++ [⟨DB.empty.next_file_id, "f", 3, 1, "t"⟩]) :=
  ⟨⟨fun _ _ => rfl, fun l => List.reverse_perm l⟩,
    zero_success_amended DB.empty "f" "t" 3 [1, 2, 3] 1 (fun _ _ => none)
      List.reverse (fun _ _ => rfl) (fun l => List.reverse_perm l)⟩

/-- Counterexample to C9: after a fully successful ingestion, the chunk
locators are in `file_chunks`, but the `chunks` table the verifier reads is
untouched — and `init_schema` does not even create a table of that name — so
the verifier examines no data populated by ingestion and vacuously reports
success even under a digest oracle that matches nothing. -/
theorem verify_source_cex :
    verify_file_table_read = "chunks" ∧
    verify_file_table_read ∉ init_schema_tables ∧
    verify_file_table_read ∉ ingest_file_tables_written ∧
    (ingest_file DB.empty "f" "t" 3 (Except.ok [1, 2, 3]) 2
        (fun _ _ => some ("m", "u")) id).1.file_chunks ≠ [] ∧
    (ingest_file DB.empty "f" "t" 3 (Except.ok [1, 2, 3]) 2
        (fun _ _ => some ("m", "u")) id).1.chunks = [] ∧
    verify_file (ingest_file DB.empty "f" "t" 3 (Except.ok [1, 2, 3]) 2
        (fun _ _ => some ("m", "u")) id).1 1 (fun _ => "nomatch") = true :=
  ⟨rfl, by decide, by decide, by decide, by decide, by decide⟩

/-- C9 amended: the verifier recomputes a digest per scanned row and reports
an aggregate verdict, but it scans the `chunks` table, which no ingestion
ever writes (every ingestion leaves it unchanged) and `init_schema` never
creates; on a catalog whose `chunks` table is empty — as after any sequence
of modelled ingestions from an empty catalog — it examines nothing and
reports success for every file identifier and every digest oracle. -/
theorem verify_file_amended (db : DB) (filename now : String) (meta_size : Nat)
    (read_data : Except Unit (List Byte)) (S : Nat)
    (upload : Nat → List Byte → Option (String × String))
    (sched : List (Nat × String × String) → List (Nat × String × String))
    (fid : Nat) (sha : List Byte → String)
    (hchunks : db.chunks = []) :
    (ingest_file db filename now meta_size read_data S upload sched).1.chunks =
      db.chunks ∧
    verify_file db fid sha = true := by
  refine ⟨ingest_file_chunks_table db filename now meta_size read_data S upload sched, ?_⟩
  unfold verify_file
  rw [hchunks]
  rfl

/-- Concrete instantiation of `verify_file_amended`. -/
theorem verify_file_amended_witness :
    DB.empty.chunks = [] ∧
    ((ingest_file DB.empty "f" "t" 3 (Except.ok [1, 2, 3]) 2
        (fun _ _ => some ("m", "u")) id).1.chunks = DB.empty.chunks ∧
      verify_file DB.empty 1 (fun _ => "h") = true) :=
  ⟨rfl, verify_file_amended DB.empty "f" "t" 3 (Except.ok [1, 2, 3]) 2
    (fun _ _ => some ("m", "u")) id 1 (fun _ => "h") rfl⟩

/-- C10: the `files` row is inserted and its identifier assigned before any
chunk is read or uploaded; when the chunk-read loop later fails, or when
every upload fails permanently, the row remains in the catalog — there is no
rollback (`ingest_file` runs no transaction). -/
theorem file_record_not_rolled_back (db : DB) (filename now : String)
    (meta_size : Nat) (data : List Byte) (S : Nat)
    (upload : Nat → List Byte → Option (String × String))
    (sched : List (Nat × String × String) → List (Nat × String × String)) :
    ((ingest_file db filename now meta_size (Except.error ()) S upload sched).2 =
        Except.error IngestErr.ioError ∧
      (ingest_file db filename now meta_size (Except.error ()) S upload sched).1.files =
        db.files ++ [⟨db.next_file_id, filename, meta_size, S, now⟩]) ∧
    ((ingest_file db filename now meta_size (Except.ok data) S
        (fun _ _ => none) sched).2 = Except.ok db.next_file_id ∧
      (ingest_file db filename now meta_size (Except.ok data) S
        (fun _ _ => none) sched).1.files =
        db.files ++ [⟨db.next_file_id, filename, meta_size, S, now⟩]) :=
  ⟨⟨rfl, ingest_file_files db filename now meta_size (Except.error ()) S upload sched⟩,
    ⟨rfl, ingest_file_files db filename now meta_size (Except.ok data) S
      (fun _ _ => none) sched⟩⟩

end OctoPotato
